import Mathlib

/-!
Shallow embedding of the process subsystem of the os5 kernel
(src/os5/src/task/{manager,processor,task,pid,mod}.rs and the syscall
dispatcher), together with theorems checking the natural-language
specification against it.

Rust machine integers are modelled as Nat with explicit reduction
modulo 2 ^ 64 (usize) or 2 ^ 8 (u8) where the source relies on
wrapping; fallible paths (panics of indexing, unwrap, assert and
division by zero) are modelled with Except.
-/

namespace OS5

/-- Panic reasons of the modelled Rust code: out-of-bounds indexing,
Option.unwrap on None, a failed assert, and division by zero. -/
inductive Panic where
  | indexOutOfBounds
  | unwrapNone
  | assertionFailure
  | divisionByZero
deriving DecidableEq

/-- Modulus of the 64-bit usize arithmetic. -/
def USIZE_MOD : Nat := 2 ^ 64

/-- Modelled from the spec: config PAGE_SIZE (config.rs is not under src/). -/
def PAGE_SIZE : Nat := 4096

/-- Modelled from the spec: config KERNEL_STACK_SIZE (config.rs is not under src/). -/
def KERNEL_STACK_SIZE : Nat := 2 * PAGE_SIZE

/-- Modelled from the spec: config TRAMPOLINE, the highest page of the address space
(config.rs is not under src/). -/
def TRAMPOLINE : Nat := USIZE_MOD - PAGE_SIZE

/-- Modelled from the spec: config TRAP_CONTEXT, the page right below the trampoline
(config.rs is not under src/). -/
def TRAP_CONTEXT : Nat := TRAMPOLINE - PAGE_SIZE

/-- Modelled from the spec: config MAX_SYSCALL_NUM (config.rs is not under src/);
only the length of the per-task syscall counter array depends on it. -/
def MAX_SYSCALL_NUM : Nat := 500

/-- Modelled from the spec: config BIG_STRIDE, which fits in u8, e.g. 255
(config.rs is not under src/). -/
def BIG_STRIDE : Nat := 255

/-- Modelled from the spec: the kernel page-table token (opaque external value). -/
def KERNEL_SPACE_TOKEN : Nat := 3

/-- Modelled from the spec: the address of the trap handler (opaque external value). -/
def TRAP_HANDLER_ADDR : Nat := 2

/-- Modelled from the spec: the address of the trap-return trampoline entry
(opaque external value). -/
def TRAP_RETURN_ADDR : Nat := 1

/-- The usize wrapping subtraction a.wrapping_sub b, i.e. (a - b) mod 2 ^ 64. -/
def wrapping_sub (a b : Nat) : Nat := (a + (USIZE_MOD - b % USIZE_MOD)) % USIZE_MOD

/-- The low byte of the wrapping difference a - b: the key on which the
i8-cast comparison of the stride scan decides, negative exactly when it is
at least 128. -/
def diff8 (a b : Nat) : Nat := (a + (256 - b % 256)) % 256

/-- Modelled from the spec: a page-table entry as seen through
MemorySet.translate of the mm module (not under src/): a physical page
number and a validity bit. -/
structure PageTableEntry where
  ppn : Nat
  valid : Bool
deriving DecidableEq

/-- Modelled from the spec: one owned virtual region (MapArea) of a memory
set, identified by its start and end virtual page numbers and its
permission bits. -/
structure MapArea where
  startVpn : Nat
  endVpn : Nat
  perm : Nat
deriving DecidableEq

/-- Modelled from the spec: a memory set is a page table plus the owned
virtual regions that populate it (mm module, not under src/). The page
table is an association list from virtual page number to entry. -/
structure MemorySet where
  areas : List MapArea
  pageTable : List (Nat × PageTableEntry)
deriving DecidableEq

/-- Modelled from the spec: MemorySet.translate walks the page table of the
memory set and returns the entry of the given virtual page number, if any. -/
def MemorySet.translate (ms : MemorySet) (vpn : Nat) : Option PageTableEntry :=
  (ms.pageTable.find? (fun e => e.1 == vpn)).map (fun e => e.2)

/-- The half-open list of virtual page numbers [s, e). -/
def page_range (s e : Nat) : List Nat := List.range' s (e - s)

/-- Modelled from the spec: VirtAddr.ceil, the page number of an address
rounded up to a whole page (mm module, not under src/). -/
def va_ceil (a : Nat) : Nat := (a + PAGE_SIZE - 1) / PAGE_SIZE

/-- Modelled from the spec: MemorySet.insert_framed_area inserts a framed
region [floor start, ceil end) with the given permission bits, backing
every page with a fresh frame so its page-table entry becomes valid
(mm module, not under src/; physical frame numbers are abstracted to 0). -/
def MemorySet.insert_framed_area (ms : MemorySet) (startVa endVa perm : Nat) : MemorySet :=
  { areas := ms.areas ++ [⟨startVa / PAGE_SIZE, va_ceil endVa, perm⟩],
    pageTable := ms.pageTable ++
      (page_range (startVa / PAGE_SIZE) (va_ceil endVa)).map (fun v => (v, ⟨0, true⟩)) }

/-- Modelled from the spec: MemorySet.remove_area_with_start_vpn removes the
first region whose start virtual page number matches, unmapping its pages
(mm module, not under src/). -/
def MemorySet.remove_area_with_start_vpn (ms : MemorySet) (vpn : Nat) : MemorySet :=
  match ms.areas.find? (fun a => a.startVpn == vpn) with
  | none => ms
  | some a =>
    { areas := ms.areas.eraseP (fun b => b.startVpn == vpn),
      pageTable := ms.pageTable.filter (fun e => !(a.startVpn ≤ e.1 && e.1 < a.endVpn)) }

/-- Modelled from the spec: MemorySet.recycle_data_pages clears the region
list of the memory set, releasing all data frames (mm module, not under src/). -/
def MemorySet.recycle_data_pages (ms : MemorySet) : MemorySet :=
  { ms with areas := [] }

/-- Modelled from the spec: MapPermission.from_bits of the bitflags crate:
some iff no bit outside R|W|X|U = 0b11110 is set (u8 argument). -/
def MapPermission.from_bits (bits : Nat) : Option Nat :=
  if bits &&& 225 = 0 then some bits else none

/-- Task status, from src/os5/src/task/task.rs. -/
inductive TaskStatus where
  | UnInit
  | Ready
  | Running
  | Zombie
deriving DecidableEq

/-- Modelled from the spec: the context-switch register snapshot is an
opaque platform primitive; only the inputs that distinguish its
constructors are tracked. -/
structure TaskContext where
  ra : Nat
  sp : Nat
deriving DecidableEq

def TaskContext.zero_init : TaskContext := ⟨0, 0⟩

def TaskContext.goto_trap_return (kstack_ptr : Nat) : TaskContext :=
  ⟨TRAP_RETURN_ADDR, kstack_ptr⟩

/-- Modelled from the spec: the trap frame contract records entry point,
user stack pointer, kernel token, kernel stack pointer and trap handler
address (trap module, not under src/). -/
structure TrapContext where
  sepc : Nat
  sp : Nat
  kernel_satp : Nat
  kernel_sp : Nat
  trap_handler : Nat
deriving DecidableEq

def TrapContext.app_init_context (entry sp kernel_satp kernel_sp trap_handler : Nat) :
    TrapContext :=
  { sepc := entry, sp := sp, kernel_satp := kernel_satp,
    kernel_sp := kernel_sp, trap_handler := trap_handler }

/-- The task control block, from src/os5/src/task/task.rs, with the
immutable pid and kernel stack and the fields of TaskControlBlockInner.
The kernel stack is represented by the pid that positions it; the parent
back reference and the owned children are represented by pids, resolved
through the kernel process map. The content of the trap-context physical
page of this task is carried in the trap_cx field. -/
structure TaskControlBlock where
  pid : Nat
  kernel_stack : Nat
  trap_cx_ppn : Nat
  base_size : Nat
  task_cx : TaskContext
  task_status : TaskStatus
  memory_set : MemorySet
  parent : Option Nat
  children : List Nat
  exit_code : Int
  start_time : Nat
  syscall_times : List Nat
  priority : Nat
  pass : Nat
  trap_cx : TrapContext
deriving DecidableEq

/-- The (memory_set, user_sp, entry_point) result of MemorySet.from_elf,
the external ELF loader (out of scope per the spec). -/
structure ElfInfo where
  memory_set : MemorySet
  user_sp : Nat
  entry_point : Nat
deriving DecidableEq

/-- kernel_stack_position, from src/os5/src/task/pid.rs: bottom and top of
the kernel stack slot of the given pid. -/
def kernel_stack_position (app_id : Nat) : Nat × Nat :=
  let top := TRAMPOLINE - app_id * (KERNEL_STACK_SIZE + PAGE_SIZE)
  (top - KERNEL_STACK_SIZE, top)

/-- TaskControlBlock.new, from src/os5/src/task/task.rs. The pid argument
stands for the handle obtained from pid_alloc; the error case models the
unwrap panic when the ELF address space lacks a trap-context page. -/
def TaskControlBlock.new (elf : ElfInfo) (pid : Nat) : Except Panic TaskControlBlock :=
  match elf.memory_set.translate (TRAP_CONTEXT / PAGE_SIZE) with
  | none => .error .unwrapNone
  | some pte =>
    .ok
      { pid := pid
        kernel_stack := pid
        trap_cx_ppn := pte.ppn
        base_size := elf.user_sp
        task_cx := TaskContext.goto_trap_return (kernel_stack_position pid).2
        task_status := .Ready
        memory_set := elf.memory_set
        parent := none
        children := []
        exit_code := 0
        start_time := 0
        syscall_times := List.replicate MAX_SYSCALL_NUM 0
        priority := 16
        pass := 0
        trap_cx := TrapContext.app_init_context elf.entry_point elf.user_sp
          KERNEL_SPACE_TOKEN (kernel_stack_position pid).2 TRAP_HANDLER_ADDR }

/-- TaskControlBlock.exec, from src/os5/src/task/task.rs: rebuild the
memory set from the ELF, refresh the trap-context physical page number and
reinitialize the trap frame, leaving every other field alone. -/
def TaskControlBlock.exec (t : TaskControlBlock) (elf : ElfInfo) :
    Except Panic TaskControlBlock :=
  match elf.memory_set.translate (TRAP_CONTEXT / PAGE_SIZE) with
  | none => .error .unwrapNone
  | some pte =>
    .ok
      { t with
        memory_set := elf.memory_set
        trap_cx_ppn := pte.ppn
        trap_cx := TrapContext.app_init_context elf.entry_point elf.user_sp
          KERNEL_SPACE_TOKEN (kernel_stack_position t.kernel_stack).2 TRAP_HANDLER_ADDR }

/-- The scan loop of TaskManager.fetch, from src/os5/src/task/manager.rs
lines 38-52: the iterations for i = 1, 2, ... with running state
(min_pass, idx); an entry replaces the running minimum exactly when the
usize difference entry.pass - min_pass, truncated to 8 bits, is a
negative i8 (that is, its low byte is at least 128). -/
def scanLoop : List TaskControlBlock → Nat → Nat → Nat → Nat × Nat
  | [], min_pass, idx, _ => (min_pass, idx)
  | t :: ts, min_pass, idx, i =>
    if 128 ≤ wrapping_sub t.pass min_pass % 256 then scanLoop ts t.pass i (i + 1)
    else scanLoop ts min_pass idx (i + 1)

/-- The whole selection loop of TaskManager.fetch: min_pass starts at
usize::MAX and idx at 0; the i = 0 iteration unconditionally loads entry 0. -/
def fetchScan : List TaskControlBlock → Nat × Nat
  | [] => (USIZE_MOD - 1, 0)
  | t :: ts => scanLoop ts t.pass 0 1

/-- TaskManager.fetch, from src/os5/src/task/manager.rs: select an index by
the scan, index the queue there (a panic when out of bounds, which happens
exactly on the empty queue), add (BIG_STRIDE as u8) / priority to the pass
of that entry (a division-by-zero panic when priority = 0), remove it and
return it. The queue holds reference-counted blocks, so the removed entry
carries the updated pass. -/
def fetch (q : List TaskControlBlock) :
    Except Panic (Option TaskControlBlock × List TaskControlBlock) :=
  match q[(fetchScan q).2]? with
  | none => .error .indexOutOfBounds
  | some task =>
    if task.priority = 0 then .error .divisionByZero
    else
      .ok (some { task with
                  pass := (task.pass + (BIG_STRIDE % 256) / task.priority) % USIZE_MOD },
           q.eraseIdx (fetchScan q).2)

/-- set_priority, from src/os5/src/task/processor.rs: reject arguments below
2 with -1; otherwise store the argument truncated to u8 into the current
task and return the argument. -/
def set_priority (prio : Int) (t : TaskControlBlock) : Int × TaskControlBlock :=
  if prio < 2 then (-1, t)
  else (prio, { t with priority := prio.toNat % 256 })

/-- get_run_time, from src/os5/src/task/processor.rs: microseconds now
minus the start_time field of the current task (usize subtraction). -/
def get_run_time (now_us : Nat) (t : TaskControlBlock) : Nat :=
  wrapping_sub now_us t.start_time

/-- The effect of one dispatch of run_tasks on the fetched task, from
src/os5/src/task/processor.rs lines 59-72: the status becomes Running and
nothing else of the block changes. -/
def run_tasks_dispatch (t : TaskControlBlock) : TaskControlBlock :=
  { t with task_status := .Running }

/-- The early-returning validation loop of mmap, from
src/os5/src/task/processor.rs lines 154-164: true when some page of the
list translates to a valid entry. -/
def any_valid_mapping (ms : MemorySet) : List Nat → Bool
  | [] => false
  | v :: vs =>
    match ms.translate v with
    | some pte => if pte.valid then true else any_valid_mapping ms vs
    | none => any_valid_mapping ms vs

/-- The early-returning validation loop of munmap, from
src/os5/src/task/processor.rs lines 184-199: true when every page of the
list translates to a valid entry. -/
def all_valid_mapping (ms : MemorySet) : List Nat → Bool
  | [] => true
  | v :: vs =>
    match ms.translate v with
    | some pte => if pte.valid then all_valid_mapping ms vs else false
    | none => false

/-- The pages covered by a range of virtual addresses, [start, start + len)
rounded up to whole pages, as iterated by VPNRange in mmap and munmap. -/
def mmapPages (start len : Nat) : List Nat :=
  page_range (start / PAGE_SIZE) (va_ceil (start + len))

/-- mmap, from src/os5/src/task/processor.rs: reject unaligned start, port
bits outside the low three, or an all-zero low three bits with -1; build
the permission (port as u8) << 1 | U through MapPermission.from_bits
followed by unwrap (the error case models the unwrap panic); return -1
when some page of the range already has a valid entry; otherwise insert a
framed region over the range and return 0. -/
def mmap (ms : MemorySet) (start len port : Nat) : Except Panic (Int × MemorySet) :=
  if start % PAGE_SIZE ≠ 0 ∨ port &&& (USIZE_MOD - 8) ≠ 0 ∨ port &&& 7 = 0 then
    .ok (-1, ms)
  else
    match MapPermission.from_bits (port % 256 * 2 % 256) with
    | none => .error .unwrapNone
    | some bits =>
      let map_permission := bits ||| 16
      if any_valid_mapping ms (mmapPages start len) then .ok (-1, ms)
      else .ok (0, ms.insert_framed_area start (start + len) map_permission)

/-- munmap, from src/os5/src/task/processor.rs: reject unaligned start with
-1; return -1 when some page of the range is unmapped or invalid; otherwise
remove the region of every page of the range by its start virtual page
number and return 0. -/
def munmap (ms : MemorySet) (start len : Nat) : Int × MemorySet :=
  if start % PAGE_SIZE ≠ 0 then (-1, ms)
  else if all_valid_mapping ms (mmapPages start len) then
    (0, (mmapPages start len).foldl MemorySet.remove_area_with_start_vpn ms)
  else (-1, ms)

/-- PidAllocator, from src/os5/src/task/pid.rs. -/
structure PidAllocator where
  current : Nat
  recycled : List Nat
deriving DecidableEq

def PidAllocator.new : PidAllocator := ⟨0, []⟩

/-- Vec.pop of the recycled list: removes and returns the last element. -/
def vecPop (xs : List Nat) : Option (Nat × List Nat) :=
  match xs.getLast? with
  | none => none
  | some x => some (x, xs.dropLast)

/-- PidAllocator.alloc, from src/os5/src/task/pid.rs: pop the recycled list
if non-empty, else return the counter and post-increment it. -/
def PidAllocator.alloc (a : PidAllocator) : Nat × PidAllocator :=
  match vecPop a.recycled with
  | some (pid, rest) => (pid, { a with recycled := rest })
  | none => (a.current, { a with current := a.current + 1 })

/-- PidAllocator.dealloc, from src/os5/src/task/pid.rs: assert the pid is
below the counter and not already recycled (the error case models the
assert panics), then append it to the recycled list. This is what Drop of
PidHandle triggers. -/
def PidAllocator.dealloc (a : PidAllocator) (pid : Nat) : Except Panic PidAllocator :=
  if pid < a.current then
    if a.recycled.any (fun ppid => ppid == pid) then .error .assertionFailure
    else .ok { a with recycled := a.recycled ++ [pid] }
  else .error .assertionFailure

/-- The kernel process map: each live task control block keyed by its pid. -/
abbrev Kernel := List (Nat × TaskControlBlock)

/-- Resolve a pid in the process map. -/
def lookupProc (k : Kernel) (pid : Nat) : Option TaskControlBlock :=
  (k.find? (fun e => e.1 == pid)).map (fun e => e.2)

/-- Update the block of a pid in the process map. -/
def updateProc (k : Kernel) (pid : Nat) (f : TaskControlBlock → TaskControlBlock) : Kernel :=
  k.map (fun e => if e.1 = pid then (e.1, f e.2) else e)

/-- The pid of INITPROC: the first allocation of the pid allocator. -/
def INITPROC_PID : Nat := 0

/-- The reparenting loop of exit_current_and_run_next, from
src/os5/src/task/mod.rs lines 75-81: every child of the dying task gets
INITPROC as parent and is appended to the children of INITPROC. -/
def reparentLoop (k : Kernel) (cs : List Nat) : Kernel :=
  cs.foldl
    (fun kk c =>
      updateProc (updateProc kk c (fun t => { t with parent := some INITPROC_PID }))
        INITPROC_PID (fun t => { t with children := t.children ++ [c] }))
    k

/-- exit_current_and_run_next, from src/os5/src/task/mod.rs: the current
task (the error case models the take_current unwrap) becomes a Zombie with
the given exit code, its children are reparented under INITPROC, its own
children list is cleared and its data pages are recycled. -/
def exit_current_and_run_next (k : Kernel) (cur : Nat) (code : Int) : Except Panic Kernel :=
  match lookupProc k cur with
  | none => .error .unwrapNone
  | some tcb =>
    let k1 := updateProc k cur
      (fun t => { t with task_status := .Zombie, exit_code := code })
    let k2 := reparentLoop k1 tcb.children
    let k3 := updateProc k2 cur (fun t => { t with children := [] })
    .ok (updateProc k3 cur (fun t => { t with memory_set := t.memory_set.recycle_data_pages }))

/-- A concrete task control block used to instantiate theorems, with the
given pass and priority and defaults elsewhere. -/
def sampleTask (p pr : Nat) : TaskControlBlock :=
  { pid := 0, kernel_stack := 0, trap_cx_ppn := 0, base_size := 0,
    task_cx := ⟨0, 0⟩, task_status := .Ready,
    memory_set := ⟨[], []⟩, parent := none, children := [], exit_code := 0,
    start_time := 0, syscall_times := [], priority := pr, pass := p,
    trap_cx := ⟨0, 0, 0, 0, 0⟩ }

/-- An empty concrete memory set used to instantiate theorems. -/
def sampleMemorySet : MemorySet := ⟨[], []⟩

/-- A concrete memory set with pages 1 and 2 mapped and valid, used to
instantiate theorems. -/
def sampleMappedMS : MemorySet := ⟨[⟨1, 3, 22⟩], [(1, ⟨5, true⟩), (2, ⟨6, true⟩)]⟩

/-- A concrete ELF-load result whose address space has a trap-context page,
used to instantiate theorems. -/
def sampleElf : ElfInfo := ⟨⟨[], [(TRAP_CONTEXT / PAGE_SIZE, ⟨7, true⟩)]⟩, 100, 200⟩

/-- The u8 mask of the low three bits is the remainder modulo 8. -/
lemma and_seven_eq_mod (p : Nat) : p &&& 7 = p % 8 := by
  have h := Nat.and_pow_two_sub_one_eq_mod p 3
  norm_num at h
  exact h

/-- Bits of the usize mask !0x7: set exactly at positions 3 to 63. -/
lemma mask_testBit_eq (i : Nat) :
    (2 ^ 64 - 8 : Nat).testBit i = (decide (3 ≤ i) && decide (i < 64)) := by
  have h8 : (2 ^ 64 - 8 : Nat) = 2 ^ 64 - (7 + 1) := by norm_num
  rw [h8, Nat.testBit_two_pow_sub_succ (by norm_num)]
  have h7 : (7 : Nat).testBit i = decide (i < 3) := by
    simpa using Nat.testBit_two_pow_sub_one 3 i
  rw [h7]
  by_cases h1 : i < 3 <;> by_cases h2 : i < 64 <;> simp [h1, h2] <;> omega

/-- For a usize value, masking with !0x7 gives zero exactly when the value
is below 8, that is, when no bit outside the low three is set. -/
lemma land_high_mask_eq_zero_iff (p : Nat) (hp : p < 2 ^ 64) :
    p &&& (2 ^ 64 - 8) = 0 ↔ p < 8 := by
  constructor
  · intro h
    by_contra hge
    push_neg at hge
    obtain ⟨i, hi3, hbit⟩ := Nat.ge_two_pow_implies_high_bit_true (n := 3) hge
    have hi64 : i < 64 := by
      by_contra h64
      push_neg at h64
      have hlt : p < 2 ^ i :=
        Nat.lt_of_lt_of_le hp (Nat.pow_le_pow_right (by norm_num) h64)
      rw [Nat.testBit_lt_two_pow hlt] at hbit
      exact Bool.false_ne_true hbit
    have hand : (p &&& (2 ^ 64 - 8)).testBit i = true := by
      rw [Nat.testBit_and, mask_testBit_eq]
      simp [hbit, hi3, hi64]
    rw [h] at hand
    simp at hand
  · intro h
    apply Nat.eq_of_testBit_eq
    intro i
    rw [Nat.testBit_and, mask_testBit_eq]
    rcases Nat.lt_or_ge i 3 with hi | hi
    · simp [Nat.not_le.mpr hi]
    · have hp8 : p < 2 ^ i :=
        lt_of_lt_of_le h (le_trans (by norm_num) (Nat.pow_le_pow_right (by norm_num) hi))
      simp [Nat.testBit_lt_two_pow hp8]

/-- The early-returning munmap validation loop succeeds exactly when every
page of the list has a valid entry. -/
lemma all_valid_mapping_iff (ms : MemorySet) (vs : List Nat) :
    all_valid_mapping ms vs = true ↔
      ∀ v ∈ vs, ∃ pte, ms.translate v = some pte ∧ pte.valid = true := by
  induction vs with
  | nil => simp [all_valid_mapping]
  | cons v vs ih =>
    cases h : ms.translate v with
    | none =>
      simp only [all_valid_mapping, h]
      constructor
      · intro hfalse
        exact absurd hfalse (by simp)
      · intro hall
        obtain ⟨pte, hp, _⟩ := hall v (List.mem_cons_self v vs)
        rw [h] at hp
        cases hp
    | some pte =>
      cases hv : pte.valid with
      | true =>
        simp only [all_valid_mapping, h, hv, if_true]
        rw [ih]
        constructor
        · intro hall w hw
          rcases List.mem_cons.mp hw with rfl | hw
          · exact ⟨pte, h, hv⟩
          · exact hall w hw
        · intro hall w hw
          exact hall w (List.mem_cons_of_mem v hw)
      | false =>
        simp only [all_valid_mapping, h, hv, if_false]
        constructor
        · intro hfalse
          exact absurd hfalse (by simp)
        · intro hall
          obtain ⟨pte2, hp, hval⟩ := hall v (List.mem_cons_self v vs)
          rw [h] at hp
          cases hp
          rw [hv] at hval
          cases hval

/-- The early-returning mmap validation loop trips exactly when some page
of the list has a valid entry. -/
lemma any_valid_mapping_iff (ms : MemorySet) (vs : List Nat) :
    any_valid_mapping ms vs = true ↔
      ∃ v ∈ vs, ∃ pte, ms.translate v = some pte ∧ pte.valid = true := by
  induction vs with
  | nil => simp [any_valid_mapping]
  | cons v vs ih =>
    cases h : ms.translate v with
    | none =>
      simp only [any_valid_mapping, h]
      rw [ih]
      constructor
      · intro ⟨w, hw, hp⟩
        exact ⟨w, List.mem_cons_of_mem v hw, hp⟩
      · intro ⟨w, hw, pte, hp, hval⟩
        rcases List.mem_cons.mp hw with rfl | hw
        · rw [h] at hp; cases hp
        · exact ⟨w, hw, pte, hp, hval⟩
    | some pte =>
      cases hv : pte.valid with
      | true =>
        have hsimp : any_valid_mapping ms (v :: vs) = true := by
          simp [any_valid_mapping, h, hv]
        rw [hsimp]
        constructor
        · intro _
          exact ⟨v, List.mem_cons_self v vs, pte, h, hv⟩
        · intro _
          rfl
      | false =>
        have hsimp : any_valid_mapping ms (v :: vs) = any_valid_mapping ms vs := by
          simp [any_valid_mapping, h, hv]
        rw [hsimp, ih]
        constructor
        · intro ⟨w, hw, hp⟩
          exact ⟨w, List.mem_cons_of_mem v hw, hp⟩
        · intro ⟨w, hw, pte2, hp, hval⟩
          rcases List.mem_cons.mp hw with rfl | hw
          · rw [h] at hp; cases hp; rw [hv] at hval; cases hval
          · exact ⟨w, hw, pte2, hp, hval⟩

/-- A page is unmapped or invalid exactly when it does not hold a valid
entry. -/
lemma not_valid_page_iff (ms : MemorySet) (v : Nat) :
    (ms.translate v = none ∨ ∃ pte, ms.translate v = some pte ∧ pte.valid = false) ↔
      ¬ ∃ pte, ms.translate v = some pte ∧ pte.valid = true := by
  cases h : ms.translate v with
  | none => simp [h]
  | some pte => cases hv : pte.valid <;> simp [h, hv]

/-- C2: on the empty ready queue, fetch does not return none: the scan
leaves idx = 0 and the queue indexing ready_queue[0] panics out of bounds.
The spec and the Option return type of fetch make returning none the clear
intent, so this is a slip in the code. -/
theorem fetch_empty_queue_panics : fetch [] = .error .indexOutOfBounds := rfl

/-- C10: munmap is atomic on error: whenever it returns -1, the memory set
is unchanged, because the whole range is validated by a read-only loop
before any removal happens. -/
theorem munmap_atomic_on_error (ms : MemorySet) (start len : Nat)
    (h : (munmap ms start len).1 = -1) : (munmap ms start len).2 = ms := by
  by_cases h1 : start % PAGE_SIZE ≠ 0
  · simp [munmap, h1]
  · by_cases h2 : all_valid_mapping ms (mmapPages start len) = true
    · exfalso
      simp [munmap, h1, h2] at h
    · simp [munmap, h1, h2]

/-- Witness for C10 at a concrete unaligned call. -/
theorem munmap_atomic_on_error_witness :
    (munmap sampleMemorySet 1 4096).2 = sampleMemorySet :=
  munmap_atomic_on_error sampleMemorySet 1 4096 (by decide)

/-- C5 (amended): set_priority rejects arguments below 2 with -1 and leaves
the priority unchanged; for an argument p of at least 2 it stores p
truncated to eight bits (p mod 256) and returns p, so the stored priority
equals p, and satisfies the data-model bound of at least 2, exactly when
p is at most 255. -/
theorem set_priority_spec (p : Int) (t : TaskControlBlock) :
    (p < 2 → set_priority p t = (-1, t)) ∧
    (2 ≤ p → set_priority p t = (p, { t with priority := p.toNat % 256 })) ∧
    (2 ≤ p → p ≤ 255 →
      (set_priority p t).2.priority = p.toNat ∧ 2 ≤ (set_priority p t).2.priority) := by
  refine ⟨fun h => ?_, fun h => ?_, fun h h255 => ?_⟩
  · simp [set_priority, h]
  · simp [set_priority, Int.not_lt.mpr h]
  · have hp : ¬ p < 2 := Int.not_lt.mpr h
    simp only [set_priority, hp, if_false]
    constructor
    · omega
    · omega

/-- Witness for C5 at p = 5. -/
theorem set_priority_spec_witness :
    set_priority 5 (sampleTask 0 16) = (5, { sampleTask 0 16 with priority := 5 }) ∧
    (set_priority 5 (sampleTask 0 16)).2.priority = 5 :=
  ⟨by have h := (set_priority_spec 5 (sampleTask 0 16)).2.1 (by decide)
      simpa using h,
   ((set_priority_spec 5 (sampleTask 0 16)).2.2 (by decide) (by decide)).1⟩

/-- Counterexample to C5 as stated: set_priority 256 returns 256 but stores
priority 0, not 256 (and 0 violates the stated lower bound of 2; the next
fetch of this task would then divide BIG_STRIDE by zero). -/
theorem set_priority_claim_counterexample :
    (set_priority 256 (sampleTask 0 16)).1 = 256 ∧
    (set_priority 256 (sampleTask 0 16)).2.priority = 0 ∧
    ¬ (set_priority 256 (sampleTask 0 16)).2.priority = 256 := by decide

/-- C9: the first-ever allocation of the pid allocator returns 0, and
dealloc followed by alloc round-trips: assuming the dealloc preconditions
(pid below the high-water mark and not already free), dealloc pushes the
pid onto the recycled list, and the next alloc pops exactly that pid,
restoring the allocator state. -/
theorem pid_alloc_first_and_roundtrip :
    (PidAllocator.new.alloc).1 = 0 ∧
    ∀ (a : PidAllocator) (pid : Nat), pid < a.current →
      a.recycled.any (fun ppid => ppid == pid) = false →
      a.dealloc pid = .ok { a with recycled := a.recycled ++ [pid] } ∧
      ({ a with recycled := a.recycled ++ [pid] } : PidAllocator).alloc = (pid, a) := by
  constructor
  · rfl
  · intro a pid hlt hfree
    constructor
    · simp [PidAllocator.dealloc, hlt, hfree]
    · simp [PidAllocator.alloc, vecPop]

/-- Witness for C9 at a concrete allocator. -/
theorem pid_alloc_first_and_roundtrip_witness :
    (⟨3, [1]⟩ : PidAllocator).dealloc 2 = .ok { current := 3, recycled := [1, 2] } ∧
    ({ current := 3, recycled := [1, 2] } : PidAllocator).alloc = (2, ⟨3, [1]⟩) := by
  have h := pid_alloc_first_and_roundtrip.2 ⟨3, [1]⟩ 2 (by decide) (by decide)
  exact h

/-- C8: exec replaces the memory set with the one built from the ELF,
refreshes the trap-context physical page number, and reinitializes the
trap frame from the ELF entry point and user stack, while pid, kernel
stack, priority, pass, syscall counters, parent and children all stay
unchanged. -/
theorem exec_preserves_identity (t : TaskControlBlock) (elf : ElfInfo)
    (pte : PageTableEntry)
    (h : elf.memory_set.translate (TRAP_CONTEXT / PAGE_SIZE) = some pte) :
    t.exec elf = .ok
      { t with
        memory_set := elf.memory_set
        trap_cx_ppn := pte.ppn
        trap_cx := TrapContext.app_init_context elf.entry_point elf.user_sp
          KERNEL_SPACE_TOKEN (kernel_stack_position t.kernel_stack).2 TRAP_HANDLER_ADDR } ∧
    ∀ t2, t.exec elf = .ok t2 →
      t2.pid = t.pid ∧ t2.kernel_stack = t.kernel_stack ∧ t2.priority = t.priority ∧
      t2.pass = t.pass ∧ t2.syscall_times = t.syscall_times ∧ t2.parent = t.parent ∧
      t2.children = t.children ∧ t2.memory_set = elf.memory_set ∧
      t2.trap_cx_ppn = pte.ppn := by
  have hexec : t.exec elf = .ok
      { t with
        memory_set := elf.memory_set
        trap_cx_ppn := pte.ppn
        trap_cx := TrapContext.app_init_context elf.entry_point elf.user_sp
          KERNEL_SPACE_TOKEN (kernel_stack_position t.kernel_stack).2 TRAP_HANDLER_ADDR } := by
    simp [TaskControlBlock.exec, h]
  refine ⟨hexec, fun t2 h2 => ?_⟩
  rw [hexec] at h2
  cases h2
  simp

/-- Witness for C8 at a concrete task and ELF image. -/
theorem exec_preserves_identity_witness :
    (sampleTask 0 16).exec sampleElf = .ok
      { sampleTask 0 16 with
        memory_set := sampleElf.memory_set
        trap_cx_ppn := 7
        trap_cx := TrapContext.app_init_context sampleElf.entry_point sampleElf.user_sp
          KERNEL_SPACE_TOKEN (kernel_stack_position 0).2 TRAP_HANDLER_ADDR } :=
  (exec_preserves_identity (sampleTask 0 16) sampleElf ⟨7, true⟩ (by decide)).1

/-- C6: start_time is initialized to 0 by TaskControlBlock.new and is never
written by the dispatch step of run_tasks (nor anywhere else), so for any
task and any dispatch instant the accessor used by task_info computes
now_us - 0: time since boot, not time since first dispatch as the spec
requires. -/
theorem get_run_time_measures_boot_time (elf : ElfInfo) (pid now_us : Nat)
    (h : (elf.memory_set.translate (TRAP_CONTEXT / PAGE_SIZE)).isSome = true) :
    ∃ tcb, TaskControlBlock.new elf pid = .ok tcb ∧ tcb.start_time = 0 ∧
      (run_tasks_dispatch tcb).start_time = 0 ∧
      get_run_time now_us (run_tasks_dispatch tcb) = now_us % USIZE_MOD := by
  cases htr : elf.memory_set.translate (TRAP_CONTEXT / PAGE_SIZE) with
  | none => rw [htr] at h; simp at h
  | some pte =>
    unfold TaskControlBlock.new
    rw [htr]
    exact ⟨_, rfl, rfl, rfl,
      by simp [get_run_time, run_tasks_dispatch, wrapping_sub, USIZE_MOD]⟩

/-- Witness for C6 at a concrete ELF image and clock reading. -/
theorem get_run_time_measures_boot_time_witness :
    ∃ tcb, TaskControlBlock.new sampleElf 0 = .ok tcb ∧ tcb.start_time = 0 ∧
      (run_tasks_dispatch tcb).start_time = 0 ∧
      get_run_time 5000000 (run_tasks_dispatch tcb) = 5000000 % USIZE_MOD :=
  get_run_time_measures_boot_time sampleElf 0 5000000 (by decide)

/-- Looking up the updated pid returns the mapped block. -/
lemma lookup_update_eq (k : Kernel) (p : Nat) (f : TaskControlBlock → TaskControlBlock) :
    lookupProc (updateProc k p f) p = (lookupProc k p).map f := by
  induction k with
  | nil => rfl
  | cons e k ih =>
    by_cases he : e.1 = p
    · simp [lookupProc, updateProc, List.find?, he]
    · have hbeq : (e.1 == p) = false := by simp [he]
      simp only [lookupProc, updateProc, List.map_cons, if_neg he, List.find?, hbeq]
      simpa [lookupProc, updateProc] using ih

/-- Updating one pid leaves every other lookup unchanged. -/
lemma lookup_update_ne (k : Kernel) (p q : Nat) (f : TaskControlBlock → TaskControlBlock)
    (h : q ≠ p) :
    lookupProc (updateProc k p f) q = lookupProc k q := by
  induction k with
  | nil => rfl
  | cons e k ih =>
    by_cases he : e.1 = p
    · have hbeq : (e.1 == q) = false := by simp [he, Ne.symm h]
      simp only [lookupProc, updateProc, List.map_cons, if_pos he, List.find?, hbeq]
      simpa [lookupProc, updateProc] using ih
    · by_cases heq : e.1 = q
      · simp [lookupProc, updateProc, List.find?, he, heq, h]
      · have hbeq : (e.1 == q) = false := by simp [heq]
        simp only [lookupProc, updateProc, List.map_cons, if_neg he, List.find?, hbeq]
        simpa [lookupProc, updateProc] using ih

/-- The reparenting loop does not touch pids outside the child list and
INITPROC. -/
lemma reparent_lookup_other (cs : List Nat) (k : Kernel) (q : Nat)
    (hq : q ∉ cs) (hq0 : q ≠ INITPROC_PID) :
    lookupProc (reparentLoop k cs) q = lookupProc k q := by
  induction cs generalizing k with
  | nil => rfl
  | cons c cs ih =>
    have hqc : q ≠ c := fun h => hq (h ▸ List.mem_cons_self c cs)
    have hq2 : q ∉ cs := fun h => hq (List.mem_cons_of_mem c h)
    show lookupProc (reparentLoop _ cs) q = _
    rw [ih _ hq2, lookup_update_ne _ _ _ _ hq0, lookup_update_ne _ _ _ _ hqc]

/-- The reparenting loop appends the whole child list, in order, to the
children of INITPROC. -/
lemma reparent_lookup_init (cs : List Nat) (k : Kernel)
    (h0 : INITPROC_PID ∉ cs) :
    lookupProc (reparentLoop k cs) INITPROC_PID =
      (lookupProc k INITPROC_PID).map
        (fun t => { t with children := t.children ++ cs }) := by
  induction cs generalizing k with
  | nil =>
    show lookupProc k INITPROC_PID = _
    cases h : lookupProc k INITPROC_PID <;> simp
  | cons c cs ih =>
    have hc0 : c ≠ INITPROC_PID := fun h => h0 (h ▸ List.mem_cons_self c cs)
    have h02 : INITPROC_PID ∉ cs := fun h => h0 (List.mem_cons_of_mem c h)
    show lookupProc (reparentLoop _ cs) INITPROC_PID = _
    rw [ih _ h02, lookup_update_eq, lookup_update_ne _ _ _ _ (Ne.symm hc0)]
    cases h : lookupProc k INITPROC_PID <;> simp

/-- The reparenting loop sets the parent of every listed child to INITPROC. -/
lemma reparent_lookup_child (cs : List Nat) (k : Kernel) (c : Nat)
    (hc : c ∈ cs) (hc0 : c ≠ INITPROC_PID) :
    lookupProc (reparentLoop k cs) c =
      (lookupProc k c).map (fun t => { t with parent := some INITPROC_PID }) := by
  induction cs generalizing k with
  | nil => cases hc
  | cons d cs ih =>
    show lookupProc (reparentLoop
      (updateProc (updateProc k d (fun t => { t with parent := some INITPROC_PID }))
        INITPROC_PID (fun t => { t with children := t.children ++ [d] })) cs) c = _
    rcases List.mem_cons.mp hc with rfl | hcs
    · by_cases hin : c ∈ cs
      · rw [ih _ hin, lookup_update_ne _ _ _ _ hc0, lookup_update_eq]
        cases h : lookupProc k c <;> simp
      · rw [reparent_lookup_other cs _ c hin hc0,
          lookup_update_ne _ _ _ _ hc0, lookup_update_eq]
    · by_cases hdc : c = d
      · subst hdc
        rw [ih _ hcs, lookup_update_ne _ _ _ _ hc0, lookup_update_eq]
        cases h : lookupProc k c <;> simp
      · rw [ih _ hcs, lookup_update_ne _ _ _ _ hc0, lookup_update_ne _ _ _ _ hdc]


/-- C7: after the exit sequence of a task with exit code e, the task is a
Zombie carrying e, its children list is empty, and every former child has
parent INITPROC and appears in the children of INITPROC (which now hold
the old ones followed by the adopted ones, in order). The hypotheses are
the reachable-state invariants of the spec: the current task and INITPROC
are live and distinct, children are live, and neither INITPROC nor the
dying task is its own child. -/
theorem exit_reparents_children (k : Kernel) (cur : Nat) (code : Int)
    (tcb init0 : TaskControlBlock)
    (hcur : lookupProc k cur = some tcb)
    (hinit : lookupProc k INITPROC_PID = some init0)
    (hne : cur ≠ INITPROC_PID)
    (hc0 : INITPROC_PID ∉ tcb.children)
    (hct : cur ∉ tcb.children)
    (hlive : ∀ c ∈ tcb.children, ∃ cb, lookupProc k c = some cb) :
    ∃ k4, exit_current_and_run_next k cur code = .ok k4 ∧
      ∃ t2 i2,
        lookupProc k4 cur = some t2 ∧ t2.task_status = .Zombie ∧
        t2.exit_code = code ∧ t2.children = [] ∧
        lookupProc k4 INITPROC_PID = some i2 ∧
        i2.children = init0.children ++ tcb.children ∧
        ∀ c ∈ tcb.children, c ∈ i2.children ∧
          ∃ cb, lookupProc k4 c = some cb ∧ cb.parent = some INITPROC_PID := by
  have hexit : exit_current_and_run_next k cur code = .ok
      (updateProc
        (updateProc
          (reparentLoop
            (updateProc k cur (fun t => { t with task_status := .Zombie, exit_code := code }))
            tcb.children)
          cur (fun t => { t with children := [] }))
        cur (fun t => { t with memory_set := t.memory_set.recycle_data_pages })) := by
    simp only [exit_current_and_run_next, hcur]
  refine ⟨_, hexit, ?_⟩
  set k1 := updateProc k cur
    (fun t => { t with task_status := .Zombie, exit_code := code }) with hk1
  set k2 := reparentLoop k1 tcb.children with hk2
  set k3 := updateProc k2 cur (fun t => { t with children := [] }) with hk3
  have hlk2cur : lookupProc k2 cur = lookupProc k1 cur :=
    reparent_lookup_other tcb.children k1 cur hct hne
  have hlk1cur : lookupProc k1 cur =
      some { tcb with task_status := .Zombie, exit_code := code } := by
    rw [hk1, lookup_update_eq, hcur]
    rfl
  have hcur4 : lookupProc (updateProc k3 cur
      (fun t => { t with memory_set := t.memory_set.recycle_data_pages })) cur =
      some { tcb with
        task_status := .Zombie
        exit_code := code
        children := []
        memory_set := tcb.memory_set.recycle_data_pages } := by
    rw [lookup_update_eq, hk3, lookup_update_eq, hlk2cur, hlk1cur]
    rfl
  have hlk1init : lookupProc k1 INITPROC_PID = some init0 := by
    rw [hk1, lookup_update_ne _ _ _ _ (Ne.symm hne), hinit]
  have hinit4 : lookupProc (updateProc k3 cur
      (fun t => { t with memory_set := t.memory_set.recycle_data_pages })) INITPROC_PID =
      some { init0 with children := init0.children ++ tcb.children } := by
    rw [lookup_update_ne _ _ _ _ (Ne.symm hne), hk3,
      lookup_update_ne _ _ _ _ (Ne.symm hne), hk2,
      reparent_lookup_init tcb.children k1 hc0, hlk1init]
    rfl
  refine ⟨_, _, hcur4, rfl, rfl, rfl, hinit4, rfl, ?_⟩
  intro c hcmem
  have hcne0 : c ≠ INITPROC_PID := fun h => hc0 (h ▸ hcmem)
  have hcnecur : c ≠ cur := fun h => hct (h ▸ hcmem)
  obtain ⟨cb, hcb⟩ := hlive c hcmem
  refine ⟨List.mem_append_right _ hcmem, { cb with parent := some INITPROC_PID }, ?_, rfl⟩
  rw [lookup_update_ne _ _ _ _ hcnecur, hk3, lookup_update_ne _ _ _ _ hcnecur, hk2,
    reparent_lookup_child tcb.children k1 c hcmem hcne0, hk1,
    lookup_update_ne _ _ _ _ hcnecur, hcb]
  rfl


/-- Witness for C7: a parent with one child exits with code 42. -/
theorem exit_reparents_children_witness :
    ∃ k4, exit_current_and_run_next
        [(0, sampleTask 0 16),
         (1, { sampleTask 0 16 with pid := 1, children := [2] }),
         (2, { sampleTask 0 16 with pid := 2, parent := some 1 })] 1 42 = .ok k4 ∧
      ∃ t2 i2,
        lookupProc k4 1 = some t2 ∧ t2.task_status = .Zombie ∧
        t2.exit_code = 42 ∧ t2.children = [] ∧
        lookupProc k4 INITPROC_PID = some i2 ∧
        i2.children = (sampleTask 0 16).children ++
          ({ sampleTask 0 16 with pid := 1, children := [2] }).children ∧
        ∀ c ∈ ({ sampleTask 0 16 with pid := 1, children := [2] }).children,
          c ∈ i2.children ∧
          ∃ cb, lookupProc k4 c = some cb ∧ cb.parent = some INITPROC_PID :=
  exit_reparents_children _ 1 42
    ({ sampleTask 0 16 with pid := 1, children := [2] })
    (sampleTask 0 16)
    (by decide) (by decide) (by decide) (by decide) (by decide)
    (by
      intro c hc
      have hc2 : c = 2 := by simpa using hc
      subst hc2
      exact ⟨_, rfl⟩)

/-- C3: mmap returns -1 (leaving the memory set alone) exactly when start
is not page-aligned, or port has a bit outside the low three, or the low
three bits of port are all zero, or some page of [start, start + len)
rounded up already has a valid page-table entry; otherwise it inserts one
framed region over exactly those pages with permission (port << 1) plus
the User bit (bit 4, value 16) and returns 0. -/
theorem mmap_characterization (ms : MemorySet) (start len port : Nat)
    (hport : port < USIZE_MOD) :
    (mmap ms start len port = .ok (-1, ms) ↔
      (start % PAGE_SIZE ≠ 0 ∨ ¬ port < 8 ∨ port % 8 = 0 ∨
        ∃ vpn ∈ mmapPages start len,
          ∃ pte, ms.translate vpn = some pte ∧ pte.valid = true)) ∧
    (¬ (start % PAGE_SIZE ≠ 0 ∨ ¬ port < 8 ∨ port % 8 = 0 ∨
        ∃ vpn ∈ mmapPages start len,
          ∃ pte, ms.translate vpn = some pte ∧ pte.valid = true) →
      mmap ms start len port =
        .ok (0, ms.insert_framed_area start (start + len) (port * 2 + 16))) := by
  have hmask : port &&& (USIZE_MOD - 8) = 0 ↔ port < 8 :=
    land_high_mask_eq_zero_iff port hport
  have hsev : port &&& 7 = 0 ↔ port % 8 = 0 := by rw [and_seven_eq_mod]
  by_cases hA : start % PAGE_SIZE ≠ 0 ∨ port &&& (USIZE_MOD - 8) ≠ 0 ∨ port &&& 7 = 0
  · have hmm : mmap ms start len port = .ok (-1, ms) := by
      simp only [mmap, if_pos hA]
    have hrhs : start % PAGE_SIZE ≠ 0 ∨ ¬ port < 8 ∨ port % 8 = 0 ∨
        ∃ vpn ∈ mmapPages start len,
          ∃ pte, ms.translate vpn = some pte ∧ pte.valid = true := by
      rcases hA with h | h | h
      · exact Or.inl h
      · exact Or.inr (Or.inl (fun hlt => h (hmask.mpr hlt)))
      · exact Or.inr (Or.inr (Or.inl (hsev.mp h)))
    exact ⟨iff_of_true hmm hrhs, fun hno => absurd hrhs hno⟩
  · have hA2 := hA
    push_neg at hA2
    obtain ⟨ha, hb, hc⟩ := hA2
    have hlt8 : port < 8 := hmask.mp hb
    have hmod : port % 8 ≠ 0 := fun h => hc (hsev.mpr h)
    have hfb : MapPermission.from_bits (port % 256 * 2 % 256) = some (port * 2) := by
      interval_cases port <;> decide
    have hperm : port * 2 ||| 16 = port * 2 + 16 := by
      interval_cases port <;> decide
    by_cases hany : any_valid_mapping ms (mmapPages start len) = true
    · have hmm : mmap ms start len port = .ok (-1, ms) := by
        simp only [mmap, if_neg hA, hfb, hany, if_true]
      have hrhs : ∃ vpn ∈ mmapPages start len,
          ∃ pte, ms.translate vpn = some pte ∧ pte.valid = true :=
        (any_valid_mapping_iff ms _).mp hany
      constructor
      · exact iff_of_true hmm (Or.inr (Or.inr (Or.inr hrhs)))
      · intro hno
        exact absurd (Or.inr (Or.inr (Or.inr hrhs))) hno
    · have hmm : mmap ms start len port =
          .ok (0, ms.insert_framed_area start (start + len) (port * 2 + 16)) := by
        simp only [mmap, if_neg hA, hfb, hany, if_false, hperm, Bool.false_eq_true]
      constructor
      · rw [hmm]
        constructor
        · intro heq
          exfalso
          have : (0 : Int) = -1 := by
            have := congrArg (fun e => match e with
              | Except.ok (r, _) => r
              | Except.error _ => (7 : Int)) heq
            simpa using this
          omega
        · intro hbad
          exfalso
          rcases hbad with h | h | h | h
          · exact h ha
          · exact h hlt8
          · exact hmod h
          · exact hany ((any_valid_mapping_iff ms _).mpr h)
      · intro _
        exact hmm

/-- Witness for C3 at a concrete successful call. -/
theorem mmap_characterization_witness :
    mmap sampleMemorySet 4096 4096 3 =
      .ok (0, sampleMemorySet.insert_framed_area 4096 8192 22) := by
  have hres := (mmap_characterization sampleMemorySet 4096 4096 3
      (by norm_num [USIZE_MOD])).2 (by
    intro hbad
    rcases hbad with h1 | h1 | h1 | ⟨vpn, hmem, pte, hp, hv⟩
    · exact h1 (by decide)
    · exact h1 (by decide)
    · exact absurd h1 (by decide)
    · simp [sampleMemorySet, MemorySet.translate] at hp)
  simpa using hres

/-- C4: munmap returns -1 exactly when start is not page-aligned or some
page of [start, start + len) rounded up is unmapped or has an invalid
page-table entry; otherwise it removes the region of every page of the
range by its start virtual page number and returns 0. -/
theorem munmap_characterization (ms : MemorySet) (start len : Nat) :
    ((munmap ms start len).1 = -1 ↔
      (start % PAGE_SIZE ≠ 0 ∨ ∃ vpn ∈ mmapPages start len,
        ms.translate vpn = none ∨ ∃ pte, ms.translate vpn = some pte ∧ pte.valid = false)) ∧
    (start % PAGE_SIZE = 0 →
      (∀ vpn ∈ mmapPages start len, ∃ pte, ms.translate vpn = some pte ∧ pte.valid = true) →
      munmap ms start len =
        (0, (mmapPages start len).foldl MemorySet.remove_area_with_start_vpn ms)) := by
  constructor
  · by_cases ha : start % PAGE_SIZE ≠ 0
    · simp [munmap, ha]
    · push_neg at ha
      by_cases hall : all_valid_mapping ms (mmapPages start len) = true
      · have hmm : munmap ms start len =
            (0, (mmapPages start len).foldl MemorySet.remove_area_with_start_vpn ms) := by
          simp [munmap, ha, hall]
        rw [hmm]
        constructor
        · intro h0
          exact absurd h0 (by simp)
        · intro hbad
          exfalso
          rcases hbad with h0 | ⟨vpn, hmem, hfail⟩
          · exact h0 ha
          · obtain ⟨pte, hp, hv⟩ := (all_valid_mapping_iff ms _).mp hall vpn hmem
            rw [not_valid_page_iff] at hfail
            exact hfail ⟨pte, hp, hv⟩
      · have hmm : munmap ms start len = (-1, ms) := by
          simp [munmap, ha, hall]
        rw [hmm]
        have hex : ∃ vpn ∈ mmapPages start len,
            ¬ ∃ pte, ms.translate vpn = some pte ∧ pte.valid = true := by
          by_contra hno
          push_neg at hno
          exact hall ((all_valid_mapping_iff ms _).mpr hno)
        obtain ⟨vpn, hmem, hfail⟩ := hex
        constructor
        · intro _
          exact Or.inr ⟨vpn, hmem, (not_valid_page_iff ms vpn).mpr hfail⟩
        · intro _
          rfl
  · intro ha hall
    have h2 : all_valid_mapping ms (mmapPages start len) = true :=
      (all_valid_mapping_iff ms _).mpr hall
    simp [munmap, ha, h2]

/-- Witness for C4 at a concrete successful call over two mapped pages. -/
theorem munmap_characterization_witness :
    munmap sampleMappedMS 4096 8192 =
      (0, (mmapPages 4096 8192).foldl MemorySet.remove_area_with_start_vpn sampleMappedMS) := by
  have hpages : mmapPages 4096 8192 = [1, 2] := by decide
  exact (munmap_characterization sampleMappedMS 4096 8192).2 (by decide) (by
    intro vpn hmem
    rw [hpages] at hmem
    have : vpn = 1 ∨ vpn = 2 := by simpa using hmem
    rcases this with rfl | rfl
    · exact ⟨⟨5, true⟩, by decide, rfl⟩
    · exact ⟨⟨6, true⟩, by decide, rfl⟩)

/-- The low byte of the usize wrapping difference is diff8. -/
lemma wrapping_sub_mod256 (a b : Nat) : wrapping_sub a b % 256 = diff8 a b := by
  unfold wrapping_sub diff8 USIZE_MOD
  omega

/-- When two pass values stay within 127 of the base (no task more than
127 strides behind), the i8-cast comparison of the scan is exactly the
comparison of the offsets from the base. -/
lemma beats_iff (a b base : Nat) (ha : diff8 a base ≤ 127) (hb : diff8 b base ≤ 127) :
    (128 ≤ wrapping_sub a b % 256 ↔ diff8 a base < diff8 b base) := by
  rw [wrapping_sub_mod256]
  unfold diff8 at *
  omega

/-- Invariant of the selection loop of fetch under the bounded-lag window:
the running minimum only improves, the final minimum is below every
scanned entry, and the final index either is the initial one or points at
a scanned entry that strictly beats the initial minimum and every entry
before it. -/
lemma scanLoop_spec (base : Nat) (ts : List TaskControlBlock) :
    ∀ (min_pass idx i : Nat),
      diff8 min_pass base ≤ 127 →
      (∀ t ∈ ts, diff8 t.pass base ≤ 127) →
      (diff8 (scanLoop ts min_pass idx i).1 base ≤ diff8 min_pass base ∧
       (∀ t ∈ ts, diff8 (scanLoop ts min_pass idx i).1 base ≤ diff8 t.pass base) ∧
       (scanLoop ts min_pass idx i = (min_pass, idx) ∨
        ∃ j tj, ts[j]? = some tj ∧ (scanLoop ts min_pass idx i).2 = i + j ∧
          (scanLoop ts min_pass idx i).1 = tj.pass ∧
          diff8 tj.pass base < diff8 min_pass base ∧
          ∀ m tm, m < j → ts[m]? = some tm →
            diff8 tj.pass base < diff8 tm.pass base)) := by
  induction ts with
  | nil =>
    intro min_pass idx i hmin _
    exact ⟨le_refl _, by simp, Or.inl rfl⟩
  | cons t ts ih =>
    intro min_pass idx i hmin hts
    have hthead : diff8 t.pass base ≤ 127 := hts t (List.mem_cons_self t ts)
    have htail : ∀ u ∈ ts, diff8 u.pass base ≤ 127 :=
      fun u hu => hts u (List.mem_cons_of_mem t hu)
    by_cases hbeat : 128 ≤ wrapping_sub t.pass min_pass % 256
    · have hlt : diff8 t.pass base < diff8 min_pass base :=
        (beats_iff t.pass min_pass base hthead hmin).mp hbeat
      have hred : scanLoop (t :: ts) min_pass idx i = scanLoop ts t.pass i (i + 1) := by
        simp [scanLoop, hbeat]
      obtain ⟨ih1, ih2, ih3⟩ := ih t.pass i (i + 1) hthead htail
      rw [hred]
      refine ⟨ih1.trans (le_of_lt hlt), ?_, ?_⟩
      · intro u hu
        rcases List.mem_cons.mp hu with rfl | hu
        · exact ih1
        · exact ih2 u hu
      · rcases ih3 with heq | ⟨j, tj, hget, hidx, hval, hlt2, hmono⟩
        · refine Or.inr ⟨0, t, List.getElem?_cons_zero, ?_, ?_, hlt, ?_⟩
          · rw [heq]
            simp
          · rw [heq]
          · intro m tm hm
            omega
        · refine Or.inr ⟨j + 1, tj, ?_, ?_, hval, lt_trans hlt2 hlt, ?_⟩
          · rw [List.getElem?_cons_succ]
            exact hget
          · rw [hidx]
            omega
          · intro m tm hm hget2
            cases m with
            | zero =>
              rw [List.getElem?_cons_zero] at hget2
              cases hget2
              exact hlt2
            | succ m =>
              rw [List.getElem?_cons_succ] at hget2
              exact hmono m tm (by omega) hget2
    · have hge : diff8 min_pass base ≤ diff8 t.pass base := by
        rcases Nat.lt_or_ge (diff8 t.pass base) (diff8 min_pass base) with hlt | hge
        · exact absurd ((beats_iff t.pass min_pass base hthead hmin).mpr hlt) hbeat
        · exact hge
      have hred : scanLoop (t :: ts) min_pass idx i = scanLoop ts min_pass idx (i + 1) := by
        simp [scanLoop, hbeat]
      obtain ⟨ih1, ih2, ih3⟩ := ih min_pass idx (i + 1) hmin htail
      rw [hred]
      refine ⟨ih1, ?_, ?_⟩
      · intro u hu
        rcases List.mem_cons.mp hu with rfl | hu
        · exact ih1.trans hge
        · exact ih2 u hu
      · rcases ih3 with heq | ⟨j, tj, hget, hidx, hval, hlt2, hmono⟩
        · exact Or.inl heq
        · refine Or.inr ⟨j + 1, tj, ?_, ?_, hval, hlt2, ?_⟩
          · rw [List.getElem?_cons_succ]
            exact hget
          · rw [hidx]
            omega
          · intro m tm hm hget2
            cases m with
            | zero =>
              rw [List.getElem?_cons_zero] at hget2
              cases hget2
              exact lt_of_lt_of_le hlt2 hge
            | succ m =>
              rw [List.getElem?_cons_succ] at hget2
              exact hmono m tm (by omega) hget2


/-- C1 (amended): on a non-empty queue whose pass values all lie within
127 strides of a common base (the stated tolerance of the scheduler) and
whose priorities are nonzero, fetch removes and returns the entry of the
scan-selected index with (BIG_STRIDE as u8) / priority added to its pass,
leaves every other entry unchanged in order, and that index is the
earliest index with minimal pass: no entry compares 8-bit-signed below it,
its window offset is minimal, strictly minimal among earlier indices, and
on equal pass values the earlier entry wins. -/
theorem fetch_stride_spec (q : List TaskControlBlock) (base : Nat)
    (hne : q ≠ [])
    (hwin : ∀ t ∈ q, diff8 t.pass base ≤ 127)
    (hprio : ∀ t ∈ q, t.priority ≠ 0) :
    ∃ idx sel, idx = (fetchScan q).2 ∧ q[idx]? = some sel ∧
      fetch q = .ok (some { sel with
          pass := (sel.pass + (BIG_STRIDE % 256) / sel.priority) % USIZE_MOD },
        q.take idx ++ q.drop (idx + 1)) ∧
      (∀ (j : Nat) (tj : TaskControlBlock), q[j]? = some tj →
        ¬ 128 ≤ wrapping_sub tj.pass sel.pass % 256) ∧
      (∀ (j : Nat) (tj : TaskControlBlock), q[j]? = some tj →
        diff8 sel.pass base ≤ diff8 tj.pass base) ∧
      (∀ (j : Nat) (tj : TaskControlBlock), j < idx → q[j]? = some tj →
        diff8 sel.pass base < diff8 tj.pass base) ∧
      (∀ (j : Nat) (tj : TaskControlBlock), q[j]? = some tj → tj.pass = sel.pass →
        idx ≤ j) := by
  match q, hne with
  | t0 :: ts, _ =>
    have hwin0 : diff8 t0.pass base ≤ 127 := hwin t0 (List.mem_cons_self t0 ts)
    have hwints : ∀ u ∈ ts, diff8 u.pass base ≤ 127 :=
      fun u hu => hwin u (List.mem_cons_of_mem t0 hu)
    have hscan : fetchScan (t0 :: ts) = scanLoop ts t0.pass 0 1 := rfl
    obtain ⟨h1, h2, h3⟩ := scanLoop_spec base ts t0.pass 0 1 hwin0 hwints
    have hmin_all : ∀ (j : Nat) (tj : TaskControlBlock), (t0 :: ts)[j]? = some tj →
        diff8 (scanLoop ts t0.pass 0 1).1 base ≤ diff8 tj.pass base := by
      intro j tj hget
      cases j with
      | zero =>
        rw [List.getElem?_cons_zero] at hget
        cases hget
        exact h1
      | succ j =>
        rw [List.getElem?_cons_succ] at hget
        exact h2 tj (List.getElem?_mem hget)
    rcases h3 with heq | ⟨j, tj, hget, hidx, hval, hlt, hmono⟩
    · -- entry 0 keeps the minimum
      have h0 : (fetchScan (t0 :: ts)).2 = 0 := by rw [hscan, heq]
      refine ⟨0, t0, h0.symm, List.getElem?_cons_zero, ?_, ?_, ?_, ?_, ?_⟩
      · have hsel : (t0 :: ts)[(fetchScan (t0 :: ts)).2]? = some t0 := by
          rw [h0]
          exact List.getElem?_cons_zero
        have hpr : ¬ t0.priority = 0 := hprio t0 (List.mem_cons_self t0 ts)
        simp only [fetch, hsel, hpr, if_false]
        rw [List.eraseIdx_eq_take_drop_succ, h0]
      · intro j2 tj2 hget2
        have hle : diff8 t0.pass base ≤ diff8 tj2.pass base := by
          have h := hmin_all j2 tj2 hget2
          rw [heq] at h
          exact h
        intro hb
        have := (beats_iff tj2.pass t0.pass base
          (hwin tj2 (List.getElem?_mem hget2)) hwin0).mp hb
        omega
      · intro j2 tj2 hget2
        have hle : diff8 t0.pass base ≤ diff8 tj2.pass base := by
          have h := hmin_all j2 tj2 hget2
          rw [heq] at h
          exact h
        exact hle
      · intro j2 tj2 hj2
        omega
      · intro j2 tj2 hget2 hpass
        exact Nat.zero_le j2
    · -- a later entry j + 1 took over the minimum
      have hidx2 : (fetchScan (t0 :: ts)).2 = 1 + j := by rw [hscan, hidx]
      have hgetq : (t0 :: ts)[1 + j]? = some tj := by
        have : 1 + j = j + 1 := by omega
        rw [this, List.getElem?_cons_succ]
        exact hget
      have hmemq : tj ∈ t0 :: ts := List.getElem?_mem hgetq
      refine ⟨1 + j, tj, hidx2.symm, hgetq, ?_, ?_, ?_, ?_, ?_⟩
      · have hsel : (t0 :: ts)[(fetchScan (t0 :: ts)).2]? = some tj := by
          rw [hidx2]
          exact hgetq
        have hpr : ¬ tj.priority = 0 := hprio tj hmemq
        simp only [fetch, hsel, hpr, if_false]
        rw [hidx2, List.eraseIdx_eq_take_drop_succ]
      · intro j2 tj2 hget2
        have hle := hmin_all j2 tj2 hget2
        rw [hval] at hle
        intro hb
        have := (beats_iff tj2.pass tj.pass base
          (hwin tj2 (List.getElem?_mem hget2)) (hwin tj hmemq)).mp hb
        omega
      · intro j2 tj2 hget2
        have hle := hmin_all j2 tj2 hget2
        rw [hval] at hle
        exact hle
      · intro j2 tj2 hj2 hget2
        cases j2 with
        | zero =>
          rw [List.getElem?_cons_zero] at hget2
          cases hget2
          exact hlt
        | succ j2 =>
          rw [List.getElem?_cons_succ] at hget2
          exact hmono j2 tj2 (by omega) hget2
      · intro j2 tj2 hget2 hpass
        by_contra hcon
        push_neg at hcon
        have hstrict : diff8 tj.pass base < diff8 tj2.pass base := by
          cases j2 with
          | zero =>
            rw [List.getElem?_cons_zero] at hget2
            cases hget2
            exact hlt
          | succ j2 =>
            rw [List.getElem?_cons_succ] at hget2
            exact hmono j2 tj2 (by omega) hget2
        rw [hpass] at hstrict
        omega


/-- Counterexample to C1 as stated: with pass values 0, 200, 100, 0 the
scan walks 0 to 200 to 100 to 0 through the non-transitive wraparound
comparison and selects index 3, although index 0 holds an equal pass of 0,
so the earliest-minimal-index and equal-pass tie-break reading fails once
entries spread beyond 127. -/
theorem fetch_claim_tie_break_counterexample :
    (sampleTask 0 2).pass = (sampleTask 0 16).pass ∧
    (fetchScan [sampleTask 0 2, sampleTask 200 16, sampleTask 100 16, sampleTask 0 16]).2
      = 3 ∧
    fetch [sampleTask 0 2, sampleTask 200 16, sampleTask 100 16, sampleTask 0 16] =
      .ok (some { sampleTask 0 16 with pass := 15 },
           [sampleTask 0 2, sampleTask 200 16, sampleTask 100 16]) := by
  refine ⟨rfl, rfl, ?_⟩
  rfl

/-- Witness for C1 at a concrete three-entry queue with a pass tie. -/
theorem fetch_stride_spec_witness :
    ∃ idx sel,
      idx = (fetchScan [sampleTask 5 2, sampleTask 3 16, sampleTask 3 3]).2 ∧
      [sampleTask 5 2, sampleTask 3 16, sampleTask 3 3][idx]? = some sel ∧
      fetch [sampleTask 5 2, sampleTask 3 16, sampleTask 3 3] =
        .ok (some { sel with
            pass := (sel.pass + (BIG_STRIDE % 256) / sel.priority) % USIZE_MOD },
          List.take idx [sampleTask 5 2, sampleTask 3 16, sampleTask 3 3] ++
            List.drop (idx + 1) [sampleTask 5 2, sampleTask 3 16, sampleTask 3 3]) ∧
      (∀ (j : Nat) (tj : TaskControlBlock),
        [sampleTask 5 2, sampleTask 3 16, sampleTask 3 3][j]? = some tj →
        ¬ 128 ≤ wrapping_sub tj.pass sel.pass % 256) ∧
      (∀ (j : Nat) (tj : TaskControlBlock),
        [sampleTask 5 2, sampleTask 3 16, sampleTask 3 3][j]? = some tj →
        diff8 sel.pass 0 ≤ diff8 tj.pass 0) ∧
      (∀ (j : Nat) (tj : TaskControlBlock), j < idx →
        [sampleTask 5 2, sampleTask 3 16, sampleTask 3 3][j]? = some tj →
        diff8 sel.pass 0 < diff8 tj.pass 0) ∧
      (∀ (j : Nat) (tj : TaskControlBlock),
        [sampleTask 5 2, sampleTask 3 16, sampleTask 3 3][j]? = some tj →
        tj.pass = sel.pass → idx ≤ j) :=
  fetch_stride_spec [sampleTask 5 2, sampleTask 3 16, sampleTask 3 3] 0
    (by decide) (by decide) (by decide)

end OS5
